import Mathlib

/-!
Shallow embedding of the rule-based Sanskrit analysis core of the `vedai`
repository (`semantic-app/src/standalone_sanskrit_system.py` and the corpus
loader of `semantic-app/src/rigveda_integration.py`).

Python strings are modelled as Lean `String`, operating on their `List Char`
data; Python float confidences/scores (all multiples of 0.1, small sums, far
from any rounding boundary) are modelled as `ℚ`; Python dictionaries that are
built once and then only looked up are modelled as association lists in
insertion order; the knowledge graph's `defaultdict` tables are modelled
extensionally as total key→value maps, since no analysed behaviour observes
their iteration order.
-/

namespace Vedai

/-- Python `needle in hay` (contiguous substring test) on character lists. -/
def isInfixChars : List Char → List Char → Bool
  | n, [] => n.isEmpty
  | n, c :: cs => n.isPrefixOf (c :: cs) || isInfixChars n cs

/-- Python `needle in hay` on strings. -/
def strIn (needle hay : String) : Bool :=
  isInfixChars needle.data hay.data

/-- Python `s.startswith(p)`. -/
def strStartsWith (s p : String) : Bool :=
  p.data.isPrefixOf s.data

/-- Python `s.endswith(p)`. -/
def strEndsWith (s p : String) : Bool :=
  p.data.isSuffixOf s.data

/-- Python `s.replace('्', '')`: drop every virama character. -/
def stripVirama (s : String) : String :=
  ⟨s.data.filter (fun c => !(c = '्'))⟩

/-- Python `s.lower()` (ASCII case folding; the Devanagari range is unaffected,
matching CPython on every string this system handles). -/
def pyLower (s : String) : String :=
  ⟨s.data.map Char.toLower⟩

/-- Maximal runs of non-separator characters, i.e. `re.findall(r'[^X]+', s)`
for a separator class `X`, and also Python `str.split()` when the separator
class is whitespace. `acc` carries the characters of the current run. -/
def splitRunsAux (sep : Char → Bool) : List Char → List Char → List String
  | [], acc => if acc.isEmpty then [] else [⟨acc⟩]
  | c :: cs, acc =>
    if sep c then
      if acc.isEmpty then splitRunsAux sep cs []
      else (⟨acc⟩ : String) :: splitRunsAux sep cs []
    else splitRunsAux sep cs (acc ++ [c])

/-- Separator class of `re.findall(r'[^\s।॥]+', sentence)`: whitespace plus
the single and double danda. -/
def isTokenSep (c : Char) : Bool :=
  c.isWhitespace || c = '।' || c = '॥'

/-- Tokenizer used by `extract_semantic_triples` and
`classify_semantic_field`: `re.findall(r'[^\s।॥]+', sentence)`. -/
def tokenize (sentence : String) : List String :=
  splitRunsAux isTokenSep sentence.data []

/-- Python `query.split()` (whitespace split, no empty pieces). -/
def pySplitWs (s : String) : List String :=
  splitRunsAux (fun c => c.isWhitespace) s.data []

/-- One entry of `possible_roots` in a morphology analysis
(`{'root': ..., 'meaning': ..., 'type': 'verb'}`). -/
structure RootInfo where
  root : String
  meaning : String
  type : String
deriving DecidableEq

/-- The analysis dictionary returned by
`StandaloneSanskritAnalyzer.analyze_morphology`. The Python key `case` is a
reserved word in Lean and is rendered `caseVal`. -/
structure Morphology where
  word : String
  possible_roots : List RootInfo
  caseVal : String
  number : String
  confidence : ℚ
deriving DecidableEq

/-- The `SanskritTriple` dataclass. -/
structure SanskritTriple where
  verb_root : String
  karaka : String
  word : String
  devanagari : String := ""
  meaning : String := ""
  confidence : ℚ := 8/10
deriving DecidableEq

/-- One value of `self.vedic_vocabulary` (only the `meaning` and `domain`
keys are ever read by the analysis code; the remaining keys — `attributes`,
`type` — are dead data and are not modelled). -/
structure VocabEntry where
  meaning : String
  domain : String
deriving DecidableEq

/-- `self.vedic_vocabulary`: deities, ritual terms and cosmic terms merged in
insertion order. -/
def vedic_vocabulary : List (String × VocabEntry) :=
  [("अग्नि", ⟨"fire god, divine fire", "fire"⟩),
   ("इन्द्र", ⟨"king of gods, storm god", "storm"⟩),
   ("वरुण", ⟨"god of waters, cosmic order", "water"⟩),
   ("सोम", ⟨"sacred drink, moon god", "soma"⟩),
   ("सूर्य", ⟨"sun god", "sun"⟩),
   ("वाय", ⟨"wind god", "air"⟩),
   ("मित्र", ⟨"god of friendship, contracts", "social"⟩),
   ("यज्ञ", ⟨"sacrifice, ritual offering", "ritual"⟩),
   ("होम", ⟨"fire offering", "ritual"⟩),
   ("हवि", ⟨"oblation, offering", "ritual"⟩),
   ("मन्त्र", ⟨"sacred formula, hymn", "ritual"⟩),
   ("स्तोम", ⟨"praise, hymn", "ritual"⟩),
   ("होतृ", ⟨"priest who invokes", "ritual"⟩),
   ("ऋत्विज्", ⟨"ritual priest", "ritual"⟩),
   ("रित", ⟨"cosmic order, truth", "philosophy"⟩),
   ("सत्", ⟨"being, truth", "philosophy"⟩),
   ("द्यु", ⟨"heaven, sky", "cosmology"⟩),
   ("पृथिवी", ⟨"earth", "cosmology"⟩),
   ("आकाश", ⟨"space, ether", "cosmology"⟩),
   ("कल्प", ⟨"cosmic age", "time"⟩)]

/-- `self.verb_roots`: the fixed dhatu table, in insertion order. -/
def verb_roots : List (String × String) :=
  [("गम्", "to go, move"),
   ("अस्", "to be, exist"),
   ("भू", "to become, be"),
   ("कृ", "to do, make"),
   ("दा", "to give"),
   ("यज्", "to sacrifice, worship"),
   ("स्तु", "to praise"),
   ("गै", "to sing"),
   ("वच्", "to speak"),
   ("जि", "to conquer, win"),
   ("इ", "to go"),
   ("हन्", "to strike, kill"),
   ("पा", "to protect"),
   ("धा", "to place, hold"),
   ("इड्", "to praise, invoke")]

/-- `self.case_endings`: the six suffix lists, in insertion
(= enumeration) order. -/
def case_endings : List (String × List String) :=
  [("nominative", ["अः", "आः", "ा", "इः", "ी", "उः", "ऊः"]),
   ("accusative", ["अम्", "आम्", "इम्", "ीम्", "उम्", "ऊम्"]),
   ("instrumental", ["एन", "आ", "इणा", "ीणा", "उणा", "ऊणा"]),
   ("dative", ["आय", "ए", "ये"]),
   ("ablative", ["आत्", "स्मात्", "त्"]),
   ("locative", ["े", "इ", "औ", "सु"])]

/-- The matching condition of the verb-root scan in `analyze_morphology`:
`root in word or word.startswith(root.replace('्', ''))`. -/
def rootMatches (word root : String) : Bool :=
  strIn root word || strStartsWith word (stripVirama root)

/-- Whether some suffix of one case-ending list matches the word, i.e. the
inner `for ending in endings: if word.endswith(ending)` loop (whose `break`
makes it equivalent to an existence test). -/
def caseListMatches (word : String) (endings : List String) : Bool :=
  endings.any (fun ending => strEndsWith word ending)

/-- One step of the verb-root scan: on a match, append the root entry and add
0.3 to the confidence. -/
def rootStep (word : String) (a : Morphology) (rm : String × String) : Morphology :=
  if rootMatches word rm.1 then
    { a with possible_roots := a.possible_roots ++ [⟨rm.1, rm.2, "verb"⟩],
             confidence := a.confidence + 3/10 }
  else a

/-- One step of the case-ending scan: when any suffix of the list matches, set
the case to this list's name and add 0.4 to the confidence. Note the `break`
in the Python source only leaves the inner loop over `endings`, so the outer
loop continues into later lists. -/
def caseStep (word : String) (a : Morphology) (ce : String × List String) : Morphology :=
  if caseListMatches word ce.2 then
    { a with caseVal := ce.1, confidence := a.confidence + 4/10 }
  else a

/-- `StandaloneSanskritAnalyzer.analyze_morphology`. -/
def analyze_morphology (word : String) : Morphology :=
  let analysis : Morphology :=
    { word := word, possible_roots := [], caseVal := "unknown",
      number := "unknown", confidence := 0 }
  let analysis := verb_roots.foldl (rootStep word) analysis
  case_endings.foldl (caseStep word) analysis

/-- The fixed "praise/invoke" substrings of the first fallback in
`extract_semantic_triples`: `['इड्', 'स्तु', 'यज्', 'गै']`. -/
def praiseSubstrings : List String :=
  ["इड्", "स्तु", "यज्", "गै"]

/-- The anchor-selection phase of `extract_semantic_triples`: the first token
with a non-empty `possible_roots` list supplies `(verb_root, main_verb)` (its
first root wins); otherwise the first token containing one of the four
praise/invoke substrings anchors with default root `'स्तु'`; otherwise the
root defaults to `'अस्'` and the anchor to the first token, or the literal
`'unknown'` for an empty sentence. -/
def find_anchor (words : List String) : String × String :=
  match words.findSome? (fun w =>
      ((analyze_morphology w).possible_roots.head?).map (fun ri => (ri.root, w))) with
  | some p => p
  | none =>
    match words.find? (fun w => praiseSubstrings.any (fun vr => strIn vr w)) with
    | some w => ("स्तु", w)
    | none => ("अस्", words.headD "unknown")

/-- The case→karaka mapping of `extract_semantic_triples` (the `elif` chain;
`'unknown'` and `'nominative'` both fall to the default agent label). -/
def caseToKaraka (c : String) : String :=
  if c = "accusative" then "कर्म"
  else if c = "instrumental" then "करण"
  else if c = "dative" then "सम्प्रदान"
  else if c = "ablative" then "अपादान"
  else if c = "locative" then "अधिकरण"
  else "कर्ता"

/-- Construction of one `SanskritTriple` for a non-anchor token inside
`extract_semantic_triples`. -/
def mkTriple (vr w : String) : SanskritTriple :=
  let m := analyze_morphology w
  { verb_root := vr,
    karaka := caseToKaraka m.caseVal,
    word := w,
    devanagari := w,
    meaning := ((vedic_vocabulary.find? (fun p => p.1 == w)).map (·.2.meaning)).getD "",
    confidence := m.confidence }

/-- `StandaloneSanskritAnalyzer.extract_semantic_triples` (the returned list;
the append to the process-wide `self.triples` accumulator stores the same
values and is not separately modelled). -/
def extract_semantic_triples (sentence : String) : List SanskritTriple :=
  let words := tokenize sentence
  let a := find_anchor words
  (words.filter (fun w => !(w == a.2))).map (fun w => mkTriple a.1 w)

/-- One analysis dictionary as consumed by `build_knowledge_graph`
(`analysis.get('reference', 'unknown')` and `analysis.get('triples', [])`). -/
structure Analysis where
  reference : String := "unknown"
  triples : List SanskritTriple := []
deriving DecidableEq

/-- The per-entity record of the knowledge graph's `entities` defaultdict:
`{'verses': [], 'relations': [], 'domain': 'unknown'}`. -/
structure EntityInfo where
  verses : List String := []
  relations : List String := []
  domain : String := "unknown"
deriving DecidableEq

/-- One record of the knowledge graph's flat `relationships` list. -/
structure Relationship where
  verb : String
  relation : String
  entity : String
  verse : String
  confidence : ℚ
deriving DecidableEq

/-- The dictionary returned by `build_knowledge_graph`. The two `defaultdict`
members are modelled extensionally as total maps from keys to their recorded
values, every key starting at the defaultdict's default; no claim observes
their iteration order. -/
structure KnowledgeGraph where
  entities : String → EntityInfo := fun _ => {}
  relationships : List Relationship := []
  domains : String → List String := fun _ => []

/-- `defaultdict` access-and-mutate: update the value under key `k` with `f`. -/
def updateFn {α : Type} (m : String → α) (k : String) (f : α → α) : String → α :=
  fun e => if e = k then f (m e) else m e

/-- The body of the inner loop of `build_knowledge_graph` for a single triple
of an analysis with verse reference `ref`. -/
def addTriple (ref : String) (g : KnowledgeGraph) (t : SanskritTriple) : KnowledgeGraph :=
  let entity := t.word
  let g : KnowledgeGraph :=
    { g with entities := updateFn g.entities entity (fun i =>
        { i with verses := i.verses ++ [ref], relations := i.relations ++ [t.karaka] }) }
  let g : KnowledgeGraph :=
    if t.meaning ≠ "" then
      match vedic_vocabulary.find? (fun p => p.1 == entity) with
      | some p =>
        { g with entities := updateFn g.entities entity (fun i => { i with domain := p.2.domain }),
                 domains := updateFn g.domains p.2.domain (fun l => l ++ [ref]) }
      | none => g
    else g
  { g with relationships := g.relationships ++
      [⟨t.verb_root, t.karaka, entity, ref, t.confidence⟩] }

/-- `StandaloneSanskritAnalyzer.build_knowledge_graph`. -/
def build_knowledge_graph (analyses : List Analysis) : KnowledgeGraph :=
  analyses.foldl (fun g a => a.triples.foldl (addTriple a.reference) g) {}

/-- The verse list recorded for an entity, `graph['entities'][e]['verses']`
(empty when the entity was never touched). -/
def versesOf (g : KnowledgeGraph) (e : String) : List String :=
  (g.entities e).verses

/-- One scored result of `query_knowledge_graph`. -/
structure QueryResult where
  relationship : Relationship
  score : ℚ
deriving DecidableEq

/-- The relevance score of one relationship for the split query words: +2 per
word contained in the entity, +1.5 per word in the verb, +1 per word in the
relation (all case-insensitive substring tests). -/
def scoreRel (qwords : List String) (r : Relationship) : ℚ :=
  qwords.foldl (fun s w =>
    let s := if strIn w (pyLower r.entity) then s + 2 else s
    let s := if strIn w (pyLower r.verb) then s + 3/2 else s
    if strIn w (pyLower r.relation) then s + 1 else s) 0

/-- Stable insertion into a descending-by-score list: the new element goes
after every earlier element of equal or larger score. -/
def insertDesc (r : QueryResult) : List QueryResult → List QueryResult
  | [] => [r]
  | x :: xs => if x.score < r.score then r :: x :: xs else x :: insertDesc r xs

/-- Python `sorted(results, key=lambda x: x['score'], reverse=True)`: the
unique stable descending reordering, realised as an insertion sort. -/
def sortByScoreDesc (l : List QueryResult) : List QueryResult :=
  l.foldl (fun acc r => insertDesc r acc) []

/-- `StandaloneSanskritAnalyzer.query_knowledge_graph`. -/
def query_knowledge_graph (query : String) (g : KnowledgeGraph) : List QueryResult :=
  let query_words := pySplitWs (pyLower query)
  let results := g.relationships.filterMap (fun r =>
    let score := scoreRel query_words r
    if 0 < score then some ⟨r, score⟩ else none)
  (sortByScoreDesc results).take 10

/-- One raw JSON hymn record as read by `RigVedaCorpusProcessor.load_corpus`;
`none` fields are keys absent from the record (`dict[...]` on them raises
`KeyError`, `dict.get` yields the default). -/
structure HymnRecord where
  book : Option Int := none
  hymn : Option Int := none
  reference : Option String := none
  sanskrit : Option String := none
  romanized : Option String := none
  verses : Option Int := none
  url : Option String := none
  status : Option String := none
deriving DecidableEq

/-- The `RigVedaHymn` dataclass fields populated by `load_corpus`. -/
structure RigVedaHymn where
  book : Int
  hymn : Int
  reference : String
  sanskrit : String
  romanized : String
  verses : Int
  url : String
deriving DecidableEq

/-- The `RigVedaHymn(...)` construction inside `load_corpus`: the required
subscripts `book, hymn, reference, sanskrit, romanized` are read in order and
the first absent one raises `KeyError` (here: `none`); `verses` and `url` use
`dict.get` defaults. -/
def buildHymn (r : HymnRecord) : Option RigVedaHymn := do
  let b ← r.book
  let h ← r.hymn
  let ref ← r.reference
  let s ← r.sanskrit
  let rom ← r.romanized
  pure ⟨b, h, ref, s, rom, r.verses.getD 0, r.url.getD ""⟩

/-- The acceptance filter of `load_corpus`:
`hymn_data.get('status') == 'complete' and hymn_data.get('sanskrit')`
(the second conjunct is Python truthiness: present and non-empty). -/
def recordAccepted (r : HymnRecord) : Bool :=
  r.status == some "complete" && !(r.sanskrit.getD "" == "")

/-- The record loop of `load_corpus` under its enclosing
`try`/`except Exception`: a `KeyError` on a required field of an accepted
record aborts the loop, and the handler returns `False` while `self.hymns`
keeps every hymn appended before the failure. The first component is the
boolean return value, the second the final contents of `self.hymns`. -/
def loadAux : List HymnRecord → List RigVedaHymn → Bool × List RigVedaHymn
  | [], acc => (true, acc)
  | r :: rs, acc =>
    if recordAccepted r then
      match buildHymn r with
      | some h => loadAux rs (acc ++ [h])
      | none => (false, acc)
    else loadAux rs acc

/-- `RigVedaCorpusProcessor.load_corpus`, starting from an empty `self.hymns`
(the JSON parse step, which can only fail for reasons outside this claim's
scope, is taken as already done). -/
def load_corpus (records : List HymnRecord) : Bool × List RigVedaHymn :=
  loadAux records []

/-- The sublist of the verb-root table matched by a word. -/
def matchedRoots (w : String) : List (String × String) :=
  verb_roots.filter (fun rm => rootMatches w rm.1)

/-- The sublist of the case-ending table whose suffix lists match a word. -/
def matchedCaseLists (w : String) : List (String × List String) :=
  case_endings.filter (fun ce => caseListMatches w ce.2)

lemma foldl_rootStep (w : String) (l : List (String × String)) (a : Morphology) :
    l.foldl (rootStep w) a =
      { a with
        possible_roots := a.possible_roots ++
          (l.filter (fun rm => rootMatches w rm.1)).map
            (fun rm => (⟨rm.1, rm.2, "verb"⟩ : RootInfo)),
        confidence := a.confidence
          + 3/10 * ((l.filter (fun rm => rootMatches w rm.1)).length : ℚ) } := by
  induction l generalizing a with
  | nil => simp
  | cons rm rest ih =>
    by_cases h : rootMatches w rm.1
    · simp only [List.foldl_cons, List.filter_cons, h, if_pos, rootStep, ih]
      simp [Morphology.mk.injEq, List.append_assoc]
      ring
    · simp only [List.foldl_cons, List.filter_cons, h, rootStep, ih]
      simp

lemma foldl_caseStep (w : String) (l : List (String × List String)) (a : Morphology) :
    l.foldl (caseStep w) a =
      { a with
        caseVal := ((l.filter (fun ce => caseListMatches w ce.2)).map Prod.fst).getLastD a.caseVal,
        confidence := a.confidence
          + 4/10 * ((l.filter (fun ce => caseListMatches w ce.2)).length : ℚ) } := by
  induction l generalizing a with
  | nil => simp
  | cons ce rest ih =>
    by_cases h : caseListMatches w ce.2
    · simp only [List.foldl_cons, List.filter_cons, h, if_pos, caseStep, ih]
      simp only [Morphology.mk.injEq, List.map_cons, List.length_cons, eq_self_iff_true,
        true_and, and_true]
      constructor
      · rw [List.getLastD_cons]
      · push_cast
        ring
    · simp only [List.foldl_cons, List.filter_cons, h, caseStep, ih]
      simp

/-- Closed form of `analyze_morphology`: the recorded case is the name of the
last matching suffix list (or `'unknown'`), and the confidence is 0.3 per
matched root plus 0.4 per matching suffix list. -/
lemma analyze_morphology_eq (w : String) :
    analyze_morphology w =
      { word := w,
        possible_roots := (matchedRoots w).map
          (fun rm => (⟨rm.1, rm.2, "verb"⟩ : RootInfo)),
        caseVal := ((matchedCaseLists w).map Prod.fst).getLastD "unknown",
        number := "unknown",
        confidence := 3/10 * ((matchedRoots w).length : ℚ)
          + 4/10 * ((matchedCaseLists w).length : ℚ) } := by
  unfold analyze_morphology
  dsimp only
  rw [foldl_rootStep, foldl_caseStep]
  simp [Morphology.mk.injEq, matchedRoots, matchedCaseLists]

/-- C1 (amended): when a token's suffix matches endings from exactly the two
case lists named `A` and `B`, with `A` earlier in the fixed enumeration order,
the morphology guesser records case `B` — the `break` in the source only
leaves the inner loop, so the last matching list wins — and the 0.4
case-ending bonus is added once per matching list, hence twice. -/
theorem case_tiebreak_last_wins (w A B : String)
    (h : (matchedCaseLists w).map Prod.fst = [A, B]) :
    (analyze_morphology w).caseVal = B ∧
    (analyze_morphology w).confidence
      = 3/10 * ((matchedRoots w).length : ℚ) + 8/10 := by
  have hlen : ((matchedCaseLists w).length : ℚ) = 2 := by
    have h2 := congrArg List.length h
    simp only [List.length_map] at h2
    exact_mod_cast h2
  rw [analyze_morphology_eq]
  refine ⟨?_, ?_⟩
  · show ((matchedCaseLists w).map Prod.fst).getLastD "unknown" = B
    rw [h]
    rfl
  · show 3/10 * ((matchedRoots w).length : ℚ)
        + 4/10 * ((matchedCaseLists w).length : ℚ)
      = 3/10 * ((matchedRoots w).length : ℚ) + 8/10
    rw [hlen]
    norm_num

/-- C1 witness: the token `"इणा"` matches the nominative list (suffix `"ा"`)
and the instrumental list (suffix `"इणा"`); the guesser records
`"instrumental"` and earns the 0.4 bonus twice. -/
theorem case_tiebreak_last_wins_witness :
    (matchedCaseLists "इणा").map Prod.fst = ["nominative", "instrumental"] ∧
    (analyze_morphology "इणा").caseVal = "instrumental" ∧
    (analyze_morphology "इणा").confidence
      = 3/10 * ((matchedRoots "इणा").length : ℚ) + 8/10 := by
  have h : (matchedCaseLists "इणा").map Prod.fst = ["nominative", "instrumental"] := by
    decide
  have h2 := case_tiebreak_last_wins "इणा" "nominative" "instrumental" h
  exact ⟨h, h2.1, h2.2⟩

/-- C1 counterexample: the token `"इणा"` ends with the nominative suffix `"ा"`
(nominative is the first list of the enumeration) and with the instrumental
suffix `"इणा"`, yet the recorded case is not `"nominative"` but
`"instrumental"`, and the confidence is 0.3 (one root match, `"इ"`) plus two
0.4 case bonuses = 1.1, not the single bonus the claim allows. -/
theorem case_tiebreak_claim_false :
    strEndsWith "इणा" "ा" = true ∧
    strEndsWith "इणा" "इणा" = true ∧
    (case_endings.map Prod.fst).head? = some "nominative" ∧
    (analyze_morphology "इणा").caseVal ≠ "nominative" ∧
    (analyze_morphology "इणा").confidence = 11/10 := by
  refine ⟨by decide, by decide, by decide, by decide, ?_⟩
  rw [analyze_morphology_eq]
  show 3/10 * ((matchedRoots "इणा").length : ℚ)
      + 4/10 * ((matchedCaseLists "इणा").length : ℚ) = 11/10
  rw [show (matchedRoots "इणा").length = 1 from by decide,
      show (matchedCaseLists "इणा").length = 2 from by decide]
  norm_num

/-- C7: every morphology confidence is non-negative (it starts at 0 and only
0.3 and 0.4 increments are ever added), and there is no upper bound of 1.0:
the token `"गम्अस्भूा"` (three root matches plus a nominative ending) scores
1.3. -/
theorem confidence_nonneg_and_unbounded :
    (∀ w : String, 0 ≤ (analyze_morphology w).confidence) ∧
    1 < (analyze_morphology "गम्अस्भूा").confidence := by
  constructor
  · intro w
    rw [analyze_morphology_eq]
    show 0 ≤ 3/10 * ((matchedRoots w).length : ℚ)
        + 4/10 * ((matchedCaseLists w).length : ℚ)
    positivity
  · rw [analyze_morphology_eq]
    show 1 < 3/10 * ((matchedRoots "गम्अस्भूा").length : ℚ)
        + 4/10 * ((matchedCaseLists "गम्अस्भूा").length : ℚ)
    rw [show (matchedRoots "गम्अस्भूा").length = 3 from by decide,
        show (matchedCaseLists "गम्अस्भूा").length = 1 from by decide]
    norm_num

/-- The opening line of Rig Veda 1.1.1, the concrete sentence of C3. -/
def sampleSentence : String := "अग्निमीळे पुरोहितं यज्ञस्य देवमृत्विजम्"

/-- C3: on the sample sentence the extractor picks the verb root `"यज्"` —
an entry of the fixed verb-root table, matched as a substring of the token
`"यज्ञस्य"` — with that token as anchor, and emits exactly one triple per
remaining token, in original token order. -/
theorem sample_sentence_extraction :
    tokenize sampleSentence = ["अग्निमीळे", "पुरोहितं", "यज्ञस्य", "देवमृत्विजम्"] ∧
    find_anchor (tokenize sampleSentence) = ("यज्", "यज्ञस्य") ∧
    verb_roots.any (fun rm => rm.1 == "यज्") = true ∧
    rootMatches "यज्ञस्य" "यज्" = true ∧
    (extract_semantic_triples sampleSentence).map SanskritTriple.word
      = ["अग्निमीळे", "पुरोहितं", "देवमृत्विजम्"] :=
  ⟨by decide, by decide, by decide, by decide, by decide⟩

/-- C4: no emitted triple's word equals the token chosen as the verb anchor:
the extraction loop skips every token equal to `main_verb`. -/
theorem no_triple_for_anchor (s : String) (t : SanskritTriple)
    (ht : t ∈ extract_semantic_triples s) :
    t.word ≠ (find_anchor (tokenize s)).2 := by
  unfold extract_semantic_triples at ht
  simp only [List.mem_map, List.mem_filter] at ht
  obtain ⟨w, ⟨-, hne⟩, rfl⟩ := ht
  show w ≠ (find_anchor (tokenize s)).2
  simpa using hne

/-- C4 witness: in the sentence `"क ख"` the anchor falls back to the first
token `"क"`, and the single emitted triple (for `"ख"`) has a different word. -/
theorem no_triple_for_anchor_witness :
    (⟨"अस्", "कर्ता", "ख", "ख", "", 0⟩ : SanskritTriple) ∈ extract_semantic_triples "क ख" ∧
    (⟨"अस्", "कर्ता", "ख", "ख", "", 0⟩ : SanskritTriple).word
      ≠ (find_anchor (tokenize "क ख")).2 :=
  ⟨by decide, no_triple_for_anchor "क ख" _ (by decide)⟩

/-- C10: the extractor skips non-anchor tokens by string equality with the
anchor, so when the anchor's string occurs at least twice among the tokens,
every occurrence is skipped and fewer than (token count - 1) triples are
emitted. -/
theorem duplicate_anchor_all_skipped (s : String)
    (h : 2 ≤ (tokenize s).countP (fun w => w == (find_anchor (tokenize s)).2)) :
    (extract_semantic_triples s).length < (tokenize s).length - 1 := by
  set words := tokenize s with hw
  set mv := (find_anchor words).2 with hmv
  have hlen : (extract_semantic_triples s).length
      = words.countP (fun w => !(w == mv)) := by
    unfold extract_semantic_triples
    rw [List.length_map, ← List.countP_eq_length_filter, ← hw, ← hmv]
  have hsplit := List.length_eq_countP_add_countP (fun w => w == mv) words
  have hconv : words.countP (fun a => decide ¬((a == mv) = true))
      = words.countP (fun w => !(w == mv)) := by
    apply List.countP_congr
    intro a _
    simp
  rw [hconv] at hsplit
  have hle : words.countP (fun w => w == mv) ≤ words.length :=
    List.countP_le_length _
  omega

/-- C10 witness: in `"यज्ञस्य यज्ञस्य क"` the anchor `"यज्ञस्य"` occurs twice;
only one triple is emitted, strictly fewer than 3 - 1 = 2. -/
theorem duplicate_anchor_all_skipped_witness :
    2 ≤ (tokenize "यज्ञस्य यज्ञस्य क").countP
        (fun w => w == (find_anchor (tokenize "यज्ञस्य यज्ञस्य क")).2) ∧
    (extract_semantic_triples "यज्ञस्य यज्ञस्य क").length
      < (tokenize "यज्ञस्य यज्ञस्य क").length - 1 :=
  ⟨by decide, duplicate_anchor_all_skipped "यज्ञस्य यज्ञस्य क" (by decide)⟩

lemma versesOf_addTriple (ref : String) (g : KnowledgeGraph) (t : SanskritTriple)
    (e : String) :
    versesOf (addTriple ref g t) e
      = if t.word = e then versesOf g e ++ [ref] else versesOf g e := by
  unfold versesOf addTriple
  dsimp only
  by_cases he : t.word = e
  · subst he
    rw [if_pos rfl]
    split
    · split
      · simp [updateFn]
      · simp [updateFn]
    · simp [updateFn]
  · rw [if_neg he]
    have he2 : ¬(e = t.word) := fun h => he h.symm
    split
    · split
      · simp [updateFn, he2]
      · simp [updateFn, he2]
    · simp [updateFn, he2]

lemma versesOf_foldTriples (ref e : String) (ts : List SanskritTriple)
    (g : KnowledgeGraph) :
    versesOf (ts.foldl (addTriple ref) g) e
      = versesOf g e ++ List.replicate (ts.countP (fun t => t.word == e)) ref := by
  induction ts generalizing g with
  | nil => simp
  | cons t rest ih =>
    simp only [List.foldl_cons, List.countP_cons, ih, versesOf_addTriple]
    by_cases h : t.word = e
    · simp [h, List.replicate_succ, List.append_assoc, Nat.add_comm]
      rw [List.replicate_add]
      simp
    · simp [h]

/-- C6: folding two analyses whose triples mention the same entity once each
into a knowledge graph appends both verse references to that entity's verse
list, in input order and without deduplication. -/
theorem verse_list_accumulates (a1 a2 : Analysis) (e : String)
    (h1 : a1.triples.countP (fun t => t.word == e) = 1)
    (h2 : a2.triples.countP (fun t => t.word == e) = 1)
    (_hne : a1.reference ≠ a2.reference) :
    versesOf (build_knowledge_graph [a1, a2]) e = [a1.reference, a2.reference] := by
  unfold build_knowledge_graph
  simp only [List.foldl_cons, List.foldl_nil]
  rw [versesOf_foldTriples, versesOf_foldTriples, h1, h2]
  rfl

/-- An analysis mentioning the entity `"देव"` in verse RV 1.1.1. -/
def devaAnalysis1 : Analysis := ⟨"RV 1.1.1", [⟨"अस्", "कर्ता", "देव", "देव", "", 0⟩]⟩

/-- The same entity `"देव"` in verse RV 1.1.2. -/
def devaAnalysis2 : Analysis := ⟨"RV 1.1.2", [⟨"अस्", "कर्ता", "देव", "देव", "", 0⟩]⟩

/-- C6 witness: both verse references of the two concrete analyses end up in
`"देव"`'s verse list, in input order. -/
theorem verse_list_accumulates_witness :
    devaAnalysis1.triples.countP (fun t => t.word == "देव") = 1 ∧
    devaAnalysis2.triples.countP (fun t => t.word == "देव") = 1 ∧
    devaAnalysis1.reference ≠ devaAnalysis2.reference ∧
    versesOf (build_knowledge_graph [devaAnalysis1, devaAnalysis2]) "देव"
      = ["RV 1.1.1", "RV 1.1.2"] :=
  ⟨by decide, by decide, by decide,
    verse_list_accumulates devaAnalysis1 devaAnalysis2 "देव"
      (by decide) (by decide) (by decide)⟩

/-- C8: when no token matches any verb root and no token contains one of the
four praise/invoke substrings, extraction does not fail: the verb root
defaults to `"अस्"` ("to be") and the anchor to the first token — or to the
literal `"unknown"` marker for an empty sentence, which yields an empty
triple list. -/
theorem default_verb_fallback (s : String)
    (h1 : (tokenize s).all
        (fun w => (analyze_morphology w).possible_roots.isEmpty) = true)
    (h2 : (tokenize s).all
        (fun w => !(praiseSubstrings.any (fun vr => strIn vr w))) = true) :
    find_anchor (tokenize s) = ("अस्", (tokenize s).headD "unknown") ∧
    (tokenize s = [] → extract_semantic_triples s = []) := by
  have hfs : (tokenize s).findSome? (fun w =>
      ((analyze_morphology w).possible_roots.head?).map (fun ri => (ri.root, w)))
      = none := by
    rw [List.findSome?_eq_none_iff]
    intro w hw
    have hr := List.all_eq_true.mp h1 w hw
    rw [List.isEmpty_iff] at hr
    rw [hr]
    rfl
  have hf : (tokenize s).find?
      (fun w => praiseSubstrings.any (fun vr => strIn vr w)) = none := by
    rw [List.find?_eq_none]
    intro w hw
    have hp := List.all_eq_true.mp h2 w hw
    simpa using hp
  constructor
  · unfold find_anchor
    rw [hfs, hf]
  · intro hz
    unfold extract_semantic_triples
    rw [hz]
    rfl

/-- C8 witness: the single-token sentence `"अग्निमीळे"` matches no verb root
and no praise substring; the anchor falls back to `("अस्", "अग्निमीळे")`. -/
theorem default_verb_fallback_witness :
    (tokenize "अग्निमीळे").all
        (fun w => (analyze_morphology w).possible_roots.isEmpty) = true ∧
    (tokenize "अग्निमीळे").all
        (fun w => !(praiseSubstrings.any (fun vr => strIn vr w))) = true ∧
    (find_anchor (tokenize "अग्निमीळे")
        = ("अस्", (tokenize "अग्निमीळे").headD "unknown") ∧
      (tokenize "अग्निमीळे" = [] → extract_semantic_triples "अग्निमीळे" = [])) :=
  ⟨by decide, by decide, default_verb_fallback "अग्निमीळे" (by decide) (by decide)⟩

lemma loadAux_nil (acc : List RigVedaHymn) : loadAux [] acc = (true, acc) := rfl

lemma loadAux_cons (r : HymnRecord) (rs : List HymnRecord) (acc : List RigVedaHymn) :
    loadAux (r :: rs) acc =
      if recordAccepted r then
        match buildHymn r with
        | some h => loadAux rs (acc ++ [h])
        | none => (false, acc)
      else loadAux rs acc := rfl

lemma loadAux_append (pre rest : List HymnRecord) (acc : List RigVedaHymn)
    (h : (loadAux pre acc).1 = true) :
    loadAux (pre ++ rest) acc = loadAux rest (loadAux pre acc).2 := by
  induction pre generalizing acc with
  | nil => simp [loadAux_nil]
  | cons r rs ih =>
    rw [List.cons_append] at *
    by_cases hacc : recordAccepted r = true
    · cases hb : buildHymn r with
      | some hy =>
        rw [loadAux_cons, hacc] at h
        simp only [if_true] at h
        rw [hb] at h
        rw [loadAux_cons, loadAux_cons, hacc]
        simp only [if_true]
        rw [hb]
        exact ih _ h
      | none =>
        rw [loadAux_cons, hacc] at h
        simp only [if_true] at h
        rw [hb] at h
        simp at h
    · rw [loadAux_cons] at h
      simp only [hacc, if_false] at h
      rw [loadAux_cons, loadAux_cons]
      simp only [hacc, if_false]
      exact ih _ h

/-- C2 (amended): a missing required field on an accepted record does not
propagate out of `load_corpus`: the enclosing `except` catches the
`KeyError`, processing stops at the offending record, the method returns
`False`, and `self.hymns` keeps the partial load accepted before the
failure. -/
theorem schema_violation_caught_partial (pre post : List HymnRecord)
    (b : HymnRecord)
    (hacc : recordAccepted b = true)
    (hmiss : buildHymn b = none)
    (hpre : (load_corpus pre).1 = true) :
    load_corpus (pre ++ b :: post) = (false, (load_corpus pre).2) := by
  unfold load_corpus at hpre ⊢
  rw [loadAux_append _ _ _ hpre, loadAux_cons, hacc]
  simp only [if_true]
  rw [hmiss]

/-- A well-formed complete corpus record. -/
def goodRecord : HymnRecord :=
  { book := some 1, hymn := some 1, reference := some "RV 1.1",
    sanskrit := some "अग्नि", romanized := some "agni", status := some "complete" }

/-- A record with `status == "complete"` and non-empty `sanskrit` but with the
required field `book` missing — a schema violation on an accepted record. -/
def badRecord : HymnRecord :=
  { hymn := some 2, reference := some "RV 1.2", sanskrit := some "सोम",
    romanized := some "soma", status := some "complete" }

/-- C2 witness: loading a good record followed by the schema-violating one
returns `False` with the partial single-hymn load of the clean prefix. -/
theorem schema_violation_caught_partial_witness :
    recordAccepted badRecord = true ∧
    buildHymn badRecord = none ∧
    (load_corpus [goodRecord]).1 = true ∧
    load_corpus ([goodRecord] ++ badRecord :: [])
      = (false, (load_corpus [goodRecord]).2) :=
  ⟨by decide, by decide, by decide,
    schema_violation_caught_partial [goodRecord] [] badRecord
      (by decide) (by decide) (by decide)⟩

/-- C2 counterexample: the claim "a schema violation propagates as fatal — no
silent partial load" is false on the code: the violating record is reached
(it is accepted and lacks `book`), yet `load_corpus` returns normally with
`False` and a non-empty partial hymn list. -/
theorem schema_violation_not_fatal :
    recordAccepted badRecord = true ∧
    badRecord.book = none ∧
    load_corpus [goodRecord, badRecord]
      = (false, [⟨1, 1, "RV 1.1", "अग्नि", "agni", 0, ""⟩]) ∧
    (load_corpus [goodRecord, badRecord]).2 ≠ [] :=
  ⟨by decide, by decide, by decide, by decide⟩

lemma isPrefixOf_self (l : List Char) : l.isPrefixOf l = true := by
  induction l with
  | nil => rfl
  | cons c cs ih => simp [List.isPrefixOf, ih]

lemma strIn_self (s : String) : strIn s s = true := by
  unfold strIn
  cases h : s.data with
  | nil => rfl
  | cons c cs =>
    show isInfixChars (c :: cs) (c :: cs) = true
    unfold isInfixChars
    rw [isPrefixOf_self]
    rfl

lemma splitRunsAux_cons (sep : Char → Bool) (c : Char) (cs acc : List Char) :
    splitRunsAux sep (c :: cs) acc =
      if sep c then
        if acc.isEmpty then splitRunsAux sep cs []
        else (⟨acc⟩ : String) :: splitRunsAux sep cs []
      else splitRunsAux sep cs (acc ++ [c]) := rfl

lemma splitRunsAux_no_sep (sep : Char → Bool) (l acc : List Char)
    (h : ∀ c ∈ l, sep c = false) :
    splitRunsAux sep l acc
      = if (acc ++ l).isEmpty then [] else [⟨acc ++ l⟩] := by
  induction l generalizing acc with
  | nil => simp [splitRunsAux]
  | cons c cs ih =>
    have hc : sep c = false := h c (by simp)
    rw [splitRunsAux_cons, hc]
    simp only [Bool.false_eq_true, if_false]
    rw [ih (acc ++ [c]) (fun d hd => h d (by simp [hd]))]
    simp [List.append_assoc]

/-- Unfolding of `query_knowledge_graph` with the score fold named. -/
lemma query_eq (q : String) (g : KnowledgeGraph) :
    query_knowledge_graph q g =
      (sortByScoreDesc (g.relationships.filterMap (fun r =>
        if 0 < scoreRel (pySplitWs (pyLower q)) r
        then some ⟨r, scoreRel (pySplitWs (pyLower q)) r⟩ else none))).take 10 := rfl

lemma two_le_scoreRel_self (e : String) (r : Relationship) (hr : r.entity = e) :
    2 ≤ scoreRel [pyLower e] r := by
  unfold scoreRel
  simp only [List.foldl_cons, List.foldl_nil]
  rw [hr, strIn_self]
  simp only [if_true]
  split <;> split <;> norm_num

lemma mem_insertDesc (r x : QueryResult) (l : List QueryResult) :
    x ∈ insertDesc r l ↔ x = r ∨ x ∈ l := by
  induction l with
  | nil => simp [insertDesc]
  | cons y ys ih =>
    unfold insertDesc
    split
    · simp [or_comm, or_assoc, or_left_comm]
    · simp [ih]
      tauto

lemma length_insertDesc (r : QueryResult) (l : List QueryResult) :
    (insertDesc r l).length = l.length + 1 := by
  induction l with
  | nil => rfl
  | cons y ys ih =>
    unfold insertDesc
    split
    · simp
    · simp [ih]

lemma mem_foldl_insertDesc (l acc : List QueryResult) (x : QueryResult) :
    x ∈ l.foldl (fun acc r => insertDesc r acc) acc ↔ x ∈ acc ∨ x ∈ l := by
  induction l generalizing acc with
  | nil => simp
  | cons r rs ih =>
    rw [List.foldl_cons, ih]
    rw [mem_insertDesc]
    simp [List.mem_cons]
    tauto

lemma length_foldl_insertDesc (l acc : List QueryResult) :
    (l.foldl (fun acc r => insertDesc r acc) acc).length = acc.length + l.length := by
  induction l generalizing acc with
  | nil => simp
  | cons r rs ih =>
    rw [List.foldl_cons, ih, length_insertDesc]
    simp only [List.length_cons]
    omega

lemma mem_sortByScoreDesc (x : QueryResult) (l : List QueryResult) :
    x ∈ sortByScoreDesc l ↔ x ∈ l := by
  unfold sortByScoreDesc
  rw [mem_foldl_insertDesc]
  simp

lemma length_sortByScoreDesc (l : List QueryResult) :
    (sortByScoreDesc l).length = l.length := by
  unfold sortByScoreDesc
  rw [length_foldl_insertDesc]
  simp

/-- C5 (amended): building a graph and querying it with the exact string of an
entity that owns a relationship returns at least one relationship for that
entity with score ≥ 2, provided the entity string is non-empty, contains no
whitespace (always true for entities produced by the tokenizer), and the
graph holds at most 10 relationships — beyond 10 the top-10 truncation can
drop every relationship of the queried entity. -/
theorem query_roundtrip_small (analyses : List Analysis) (e : String)
    (r : Relationship)
    (hr : r ∈ (build_knowledge_graph analyses).relationships)
    (he : r.entity = e)
    (h1 : (pyLower e).data ≠ [])
    (h2 : ∀ c ∈ (pyLower e).data, c.isWhitespace = false)
    (hlen : (build_knowledge_graph analyses).relationships.length ≤ 10) :
    ∃ res ∈ query_knowledge_graph e (build_knowledge_graph analyses),
      res.relationship.entity = e ∧ 2 ≤ res.score := by
  have hsplit : pySplitWs (pyLower e) = [pyLower e] := by
    unfold pySplitWs
    rw [splitRunsAux_no_sep _ _ _ h2]
    rw [List.nil_append]
    rw [if_neg (by rw [List.isEmpty_iff]; exact h1)]
  have hscore : 2 ≤ scoreRel (pySplitWs (pyLower e)) r := by
    rw [hsplit]
    exact two_le_scoreRel_self e r he
  have hpos : 0 < scoreRel (pySplitWs (pyLower e)) r :=
    lt_of_lt_of_le (by norm_num) hscore
  refine ⟨⟨r, scoreRel (pySplitWs (pyLower e)) r⟩, ?_, he, hscore⟩
  rw [query_eq]
  have hmem : (⟨r, scoreRel (pySplitWs (pyLower e)) r⟩ : QueryResult)
      ∈ (build_knowledge_graph analyses).relationships.filterMap (fun r =>
        if 0 < scoreRel (pySplitWs (pyLower e)) r
        then some ⟨r, scoreRel (pySplitWs (pyLower e)) r⟩ else none) :=
    List.mem_filterMap.mpr ⟨r, hr, by rw [if_pos hpos]⟩
  have hlen2 : (sortByScoreDesc
      ((build_knowledge_graph analyses).relationships.filterMap (fun r =>
        if 0 < scoreRel (pySplitWs (pyLower e)) r
        then some ⟨r, scoreRel (pySplitWs (pyLower e)) r⟩ else none))).length ≤ 10 := by
    rw [length_sortByScoreDesc]
    exact le_trans (List.length_filterMap_le _ _) hlen
  rw [List.take_of_length_le hlen2]
  exact (mem_sortByScoreDesc _ _).mpr hmem

/-- An analysis producing one relationship for the Devanagari entity
`"अग्नि"`. -/
def agniAnalysis : Analysis :=
  ⟨"RV 1.1.1", [⟨"स्तु", "कर्ता", "अग्नि", "अग्नि", "fire god, divine fire", 0⟩]⟩

/-- C5 witness: a one-relationship graph queried with its own entity string
`"अग्नि"` yields a scored result for that entity. -/
theorem query_roundtrip_small_witness :
    (⟨"स्तु", "कर्ता", "अग्नि", "RV 1.1.1", 0⟩ : Relationship)
      ∈ (build_knowledge_graph [agniAnalysis]).relationships ∧
    ∃ res ∈ query_knowledge_graph "अग्नि" (build_knowledge_graph [agniAnalysis]),
      res.relationship.entity = "अग्नि" ∧ 2 ≤ res.score :=
  ⟨by decide,
    query_roundtrip_small [agniAnalysis] "अग्नि" ⟨"स्तु", "कर्ता", "अग्नि", "RV 1.1.1", 0⟩
      (by decide) rfl (by decide) (by decide) (by decide)⟩

lemma insertDesc_all_eq (c : ℚ) (r : QueryResult) (l : List QueryResult)
    (hr : r.score = c) (hl : ∀ x ∈ l, x.score = c) :
    insertDesc r l = l ++ [r] := by
  induction l with
  | nil => rfl
  | cons y ys ih =>
    have hy : y.score = c := hl y (by simp)
    unfold insertDesc
    rw [if_neg]
    · rw [ih (fun x hx => hl x (by simp [hx]))]
      rfl
    · rw [hy, hr]
      exact lt_irrefl c

lemma foldl_insertDesc_all_eq (c : ℚ) (l acc : List QueryResult)
    (hl : ∀ x ∈ l, x.score = c) (hacc : ∀ x ∈ acc, x.score = c) :
    l.foldl (fun acc r => insertDesc r acc) acc = acc ++ l := by
  induction l generalizing acc with
  | nil => simp
  | cons r rs ih =>
    have h1 : ∀ x ∈ rs, x.score = c := fun x hx => hl x (by simp [hx])
    have h2 : ∀ x ∈ acc ++ [r], x.score = c := by
      intro x hx
      rcases List.mem_append.mp hx with h | h
      · exact hacc x h
      · simp at h
        rw [h]
        exact hl r (by simp)
    rw [List.foldl_cons, insertDesc_all_eq c r acc (hl r (by simp)) hacc, ih _ h1 h2]
    simp

lemma sortByScoreDesc_all_eq (c : ℚ) (l : List QueryResult)
    (hl : ∀ x ∈ l, x.score = c) : sortByScoreDesc l = l := by
  unfold sortByScoreDesc
  rw [foldl_insertDesc_all_eq c l [] hl (by simp)]
  rfl

lemma filterMap_replicate_some {α β : Type} (f : α → Option β) (a : α) (b : β)
    (hf : f a = some b) (n : ℕ) :
    (List.replicate n a).filterMap f = List.replicate n b := by
  induction n with
  | zero => rfl
  | succ m ih => simp [List.replicate_succ, List.filterMap_cons, hf, ih]

/-- A triple whose word strictly contains the target entity `"भ"`. -/
def fillerTriple : SanskritTriple := ⟨"अ", "क", "भभ", "भभ", "", 0⟩

/-- A triple for the target entity `"भ"` itself. -/
def targetTriple : SanskritTriple := ⟨"अ", "क", "भ", "भ", "", 0⟩

/-- An analysis with ten filler triples before the one target triple, giving
the built graph eleven relationships. -/
def crowdedAnalysis : Analysis :=
  ⟨"v1", List.replicate 10 fillerTriple ++ [targetTriple]⟩

/-- The relationship built from a filler triple. -/
def fillerRel : Relationship := ⟨"अ", "क", "भभ", "v1", 0⟩

/-- The relationship built from the target triple. -/
def targetRel : Relationship := ⟨"अ", "क", "भ", "v1", 0⟩

/-- C5 counterexample: in a graph with eleven relationships, ten of which tie
the target's score because their entity `"भभ"` contains the query `"भ"` as a
substring, querying the graph with the exact entity string `"भ"` of its last
relationship returns no relationship for that entity at all: the stable
descending sort keeps the ten earlier ties first and the top-10 truncation
drops the target. -/
theorem query_roundtrip_cex :
    ((build_knowledge_graph [crowdedAnalysis]).relationships.any
        (fun r => r.entity == "भ")) = true ∧
    (query_knowledge_graph "भ" (build_knowledge_graph [crowdedAnalysis])).all
        (fun res => !(res.relationship.entity == "भ")) = true := by
  refine ⟨by decide, ?_⟩
  have hrels : (build_knowledge_graph [crowdedAnalysis]).relationships
      = List.replicate 10 fillerRel ++ [targetRel] := by decide
  have hsf : scoreRel ["भ"] fillerRel = 2 := by
    unfold scoreRel
    simp only [List.foldl_cons, List.foldl_nil]
    rw [show strIn "भ" (pyLower fillerRel.entity) = true from by decide,
        show strIn "भ" (pyLower fillerRel.verb) = false from by decide,
        show strIn "भ" (pyLower fillerRel.relation) = false from by decide]
    norm_num
  have hst : scoreRel ["भ"] targetRel = 2 := by
    unfold scoreRel
    simp only [List.foldl_cons, List.foldl_nil]
    rw [show strIn "भ" (pyLower targetRel.entity) = true from by decide,
        show strIn "भ" (pyLower targetRel.verb) = false from by decide,
        show strIn "भ" (pyLower targetRel.relation) = false from by decide]
    norm_num
  rw [query_eq, hrels]
  rw [show pySplitWs (pyLower "भ") = ["भ"] from by decide]
  rw [List.filterMap_append]
  rw [filterMap_replicate_some _ fillerRel (⟨fillerRel, (2 : ℚ)⟩ : QueryResult)
      (by rw [hsf]; norm_num) 10]
  rw [show List.filterMap (fun r =>
        if 0 < scoreRel ["भ"] r then some (⟨r, scoreRel ["भ"] r⟩ : QueryResult)
        else none) [targetRel] = [⟨targetRel, (2 : ℚ)⟩] from by
    simp only [List.filterMap_cons, List.filterMap_nil, hst]
    norm_num]
  rw [sortByScoreDesc_all_eq 2]
  · rw [List.take_left' (by simp)]
    decide
  · intro x hx
    rcases List.mem_append.mp hx with h | h
    · exact ((List.mem_replicate.mp h).2 ▸ rfl)
    · simp at h
      rw [h]

/-- C9: the empty query returns an empty result list for every graph (the
zero-term score sum never exceeds the `> 0` threshold), and the romanized
query `"agni"` does not match a relationship whose entity is the Devanagari
string `"अग्नि"` — the literal case-insensitive substring test treats the two
scripts as distinct identities. -/
theorem empty_query_and_script_mismatch :
    (∀ g : KnowledgeGraph, query_knowledge_graph "" g = []) ∧
    ((build_knowledge_graph [agniAnalysis]).relationships.any
        (fun r => r.entity == "अग्नि")) = true ∧
    query_knowledge_graph "agni" (build_knowledge_graph [agniAnalysis]) = [] := by
  refine ⟨?_, by decide, by decide⟩
  intro g
  rw [query_eq]
  rw [show pySplitWs (pyLower "") = ([] : List String) from rfl]
  rw [List.filterMap_eq_nil_iff.mpr ?_]
  · rfl
  · intro r _
    rw [show scoreRel [] r = 0 from rfl]
    rw [if_neg (lt_irrefl 0)]

end Vedai
